import Mathlib

/-!
Verification of `be/src/util/cpu_info.cpp` (StarRocks CPU info discovery).

The C++ source is embedded shallowly: strings become `List Char`, the
process-wide mutable fields touched by the cgroup resolver become an explicit
`CpuState` record, and the filesystem inputs of `_init_num_cores_with_cgroup`
become an explicit `CgroupEnv` record.  Definitions follow the source code;
the few primitives that live outside the studied slice (the `StringParser`
number parser, the `FileUtil` readers, the flag-bit constants of the header)
are modelled from the specification and marked as such in their doc comments.
-/

namespace CpuInfoModel

/-- Character list of a string literal (C++ `std::string` contents). -/
def chars (s : String) : List Char := s.data

/-- `std::isspace` in the default locale: space, tab, newline, vertical tab,
form feed, carriage return. -/
def isWs (c : Char) : Bool :=
  c == ' ' || c == '\t' || c == '\n' || c == '\x0b' || c == '\x0c' || c == '\r'

/-- ASCII decimal digit test. -/
def isDigitC (c : Char) : Bool := 48 ≤ c.toNat && c.toNat ≤ 57

/-- Numeric value of an ASCII digit character. -/
def digitVal (c : Char) : Nat := c.toNat - 48

/-- Drop leading and trailing whitespace. -/
def trimWs (l : List Char) : List Char :=
  ((l.dropWhile isWs).reverse.dropWhile isWs).reverse

/-- Digits-only decimal reading of a character list: `none` unless the list is
nonempty and all digits. -/
def parseNatDigits (l : List Char) : Option Nat :=
  if l.isEmpty then none
  else if l.all isDigitC then some (l.foldl (fun a c => a * 10 + digitVal c) 0)
  else none

/-- Modelled from the spec: `StringParser::string_to_int<int32_t>` from
`util/string_parser.hpp` (outside the source slice) applied to the tokens of a
core-range list, which the spec describes as "a single non-negative integer";
leading/trailing whitespace is tolerated. -/
def string_to_int32 (l : List Char) : Option Nat :=
  parseNatDigits (trimWs l)

/-- Modelled from the spec: `StringParser::string_to_int<int64_t>` from
`util/string_parser.hpp` (outside the source slice) applied to cgroup
quota/period values, which the spec describes as "microseconds, integers;
quota of `-1` ... means unlimited"; an optional leading minus sign and
surrounding whitespace are tolerated. -/
def string_to_int64 (l : List Char) : Option Int :=
  match trimWs l with
  | '-' :: rest => (parseNatDigits rest).map (fun n => -(n : Int))
  | other => (parseNatDigits other).map (fun n => (n : Int))

/-- Split a character list at every occurrence of `delim`
(`strings::Split` before the `SkipWhitespace` filter). -/
def splitOnChar (delim : Char) : List Char → List (List Char)
  | [] => [[]]
  | c :: rest =>
    if c == delim then [] :: splitOnChar delim rest
    else
      match splitOnChar delim rest with
      | [] => [[c]]
      | f :: fs => (c :: f) :: fs

/-- `strings::SkipWhitespace()`: drop fields that are empty or all whitespace. -/
def skipWsFields (fields : List (List Char)) : List (List Char) :=
  fields.filter (fun f => f.any (fun c => !(isWs c)))

/-- `strings::Split(s, delim, strings::SkipWhitespace())`. -/
def splitSkip (delim : Char) (s : List Char) : List (List Char) :=
  skipWsFields (splitOnChar delim s)

/-- `field.find('-') != std::string::npos`. -/
def hasDash (field : List Char) : Bool := field.any (fun c => c == '-')

/-- One field of `CpuInfo::parse_cpus`: a bare integer token, or a
`start-end` range expanded with the C++ loop `for (i = start; i <= end; ++i)`. -/
def parseField (field : List Char) : List Nat :=
  if !(hasDash field) then
    match string_to_int32 field with
    | some v => [v]
    | none => []
  else
    match splitSkip '-' field with
    | [startStr, endStr] =>
      match string_to_int32 startStr, string_to_int32 endStr with
      | some s, some e => List.range' s (e + 1 - s)
      | _, _ => []
    | _ => []

/-- `CpuInfo::parse_cpus`: split on commas (skipping whitespace-only fields)
and decode each field, concatenating the results in input order. -/
def parse_cpus (s : List Char) : List Nat :=
  ((splitSkip ',' s).map parseField).flatten

/-- Join tokens with a comma separator: the shape of the input strings the
parser receives (inverse of the comma split on comma-free tokens). -/
def joinComma : List (List Char) → List Char
  | [] => []
  | [t] => t
  | t :: ts => t ++ ',' :: joinComma ts

/-- Decimal rendering of a natural number (the usual base-10 numeral,
most-significant digit first). -/
def natChars (n : Nat) : List Char :=
  if h : n < 10 then [Char.ofNat (48 + n)]
  else natChars (n / 10) ++ [Char.ofNat (48 + n % 10)]
decreasing_by
  exact Nat.div_lt_self (by omega) (by omega)

/-- The process-wide `CpuInfo` fields read and written by the cgroup
resolver: `num_cores_`, `cpuset_cores_`, `is_cgroup_with_cpu_quota_`,
`is_cgroup_with_cpuset_`. -/
structure CpuState where
  num_cores : Int
  cpuset_cores : List Nat
  is_cgroup_with_cpu_quota : Bool
  is_cgroup_with_cpuset : Bool
deriving DecidableEq, Repr

/-- The filesystem type of `/sys/fs/cgroup` as seen by `statfs`. -/
inductive FsType where
  | tmpfs
  | cgroup2
  | other
deriving DecidableEq, Repr

/-- The filesystem inputs of `CpuInfo::_init_num_cores_with_cgroup`:
whether `/.dockerenv` exists, whether `statfs("/sys/fs/cgroup")` succeeds and
which filesystem type it reports, and the contents of each cgroup file
(`none` models a failed `FileUtil` read: missing file or permission denial;
for cgroup v2, `v2CpuMax` carries the quota and period tokens of `cpu.max`). -/
structure CgroupEnv where
  dockerenv : Bool
  statfsOk : Bool
  fsType : FsType
  v1CfsPeriod : Option (List Char)
  v1CfsQuota : Option (List Char)
  v1Cpuset : Option (List Char)
  v2CpuMax : Option (List Char × List Char)
  v2Cpuset : Option (List Char)
deriving DecidableEq, Repr

/-- The file-reading phase of `_init_num_cores_with_cgroup` (lines 283-308):
under cgroup v1 the three controller files are read in order and any failed
read returns early; under cgroup v2 the combined `cpu.max` file and the
unified cpuset file are read, again returning early on failure; any other
filesystem type leaves the three strings empty and falls through.
`none` models the early `return`. -/
def readCgroupFiles (env : CgroupEnv) : Option (List Char × List Char × List Char) :=
  match env.fsType with
  | FsType.tmpfs =>
    match env.v1CfsPeriod with
    | none => none
    | some periodStr =>
      match env.v1CfsQuota with
      | none => none
      | some quotaStr =>
        match env.v1Cpuset with
        | none => none
        | some cpusetStr => some (periodStr, quotaStr, cpusetStr)
  | FsType.cgroup2 =>
    match env.v2CpuMax with
    | none => none
    | some quotaPeriod =>
      match env.v2Cpuset with
      | none => none
      | some cpusetStr => some (quotaPeriod.2, quotaPeriod.1, cpusetStr)
  | FsType.other => some ([], [], [])

/-- C++ conversion of an `int64_t` value to `int32_t`: two's-complement wrap
into `[-2^31, 2^31)`. -/
def toInt32 (x : Int) : Int := (x + 2 ^ 31) % 2 ^ 32 - 2 ^ 31

/-- The quota block of `_init_num_cores_with_cgroup` (lines 310-327): parse
period and quota as `int64_t`, defaulting each to `-1` on parse failure; when
both are positive the `int64_t` quotient `quota / period` is assigned to the
`int32_t` variable `cfs_num_cores` declared at line 310 — narrowing it with
the two's-complement wrap — and the quota source is recorded as active;
otherwise the prior count `n` stands.
Returns `(cfs_num_cores, source became active)`. -/
def cfsCores (periodStr quotaStr : List Char) (n : Int) : Int × Bool :=
  let p := (string_to_int64 periodStr).getD (-1)
  let q := (string_to_int64 quotaStr).getD (-1)
  if 0 < q ∧ 0 < p then (toInt32 (q / p), true) else (n, false)

/-- The cpuset activation test (line 330-331): nonempty and containing at
least one non-whitespace character. -/
def cpusetActive (cpusetStr : List Char) : Bool :=
  !cpusetStr.isEmpty && cpusetStr.any (fun c => !(isWs c))

/-- The final update of `num_cores_` (lines 338-342): applied only when one
of the derived counts is strictly below the prior count. -/
def applyCgroupLimit (cfs cpusetCnt n : Int) : Int :=
  if cfs < n ∨ cpusetCnt < n then max 1 (min cfs cpusetCnt) else n

/-- The post-read body of `_init_num_cores_with_cgroup` (lines 310-343):
derive the quota count, derive the cpuset list (filtered by offline cores)
and count, then apply the final update rule. -/
def resolveWithContents (periodStr quotaStr cpusetStr : List Char)
    (offline : Nat → Bool) (st : CpuState) : CpuState :=
  let cfs := cfsCores periodStr quotaStr st.num_cores
  let act := cpusetActive cpusetStr
  let newCpuset :=
    if act then (parse_cpus cpusetStr).filter (fun core => !(offline core))
    else st.cpuset_cores
  let cpusetCnt : Int := if act then (newCpuset.length : Int) else st.num_cores
  CpuState.mk (applyCgroupLimit cfs.1 cpusetCnt st.num_cores)
    newCpuset
    (st.is_cgroup_with_cpu_quota || cfs.2)
    (st.is_cgroup_with_cpuset || act)

/-- `CpuInfo::_init_num_cores_with_cgroup` (lines 272-343): a no-op unless
`/.dockerenv` exists and `statfs` succeeds; a no-op when any required cgroup
file fails to read; otherwise resolve from the file contents. -/
def init_num_cores_with_cgroup (env : CgroupEnv) (offline : Nat → Bool)
    (st : CpuState) : CpuState :=
  if !env.dockerenv then st
  else if !env.statfsOk then st
  else
    match readCgroupFiles env with
    | none => st
    | some contents => resolveWithContents contents.1 contents.2.1 contents.2.2 offline st

/-- The `num_cores_` dataflow of `CpuInfo::init` (lines 123-173): the static
initializer `1`, overwritten by the `/proc/cpuinfo` processor count when
positive, then the cgroup resolver, then the `<= 0` clamp, then the
`config::num_cores` override when positive. -/
def init_num_cores (cpuinfoNumCores : Int) (env : CgroupEnv)
    (offline : Nat → Bool) (configNumCores : Int) : Int :=
  let n1 : Int := if 0 < cpuinfoNumCores then cpuinfoNumCores else 1
  let st1 := init_num_cores_with_cgroup env offline (CpuState.mk n1 [] false false)
  let n2 := if st1.num_cores ≤ 0 then 1 else st1.num_cores
  if 0 < configNumCores then configNumCores else n2

/-- `CpuInfo::get_core_ids` (lines 480-493): the cpuset list when nonempty,
otherwise the concatenation of all nodes' core lists; offline cores are
erased from the result in both cases. -/
def get_core_ids (cpuset_cores : List Nat) (numa_node_to_cores : List (List Nat))
    (offline : Nat → Bool) : List Nat :=
  let core_ids := if !cpuset_cores.isEmpty then cpuset_cores
    else numa_node_to_cores.flatten
  core_ids.filter (fun core => !(offline core))

/-- `CpuInfo::_init_numa_node_to_cores` (lines 345-354): start from
`max_num_numa_nodes` empty lists and append each core of
`[0, max_num_cores)`, in increasing id order, to the list of its node. -/
def init_numa_node_to_cores (maxNodes maxCores : Nat) (coreToNode : Nat → Nat) :
    List (List Nat) :=
  (List.range maxCores).foldl
    (fun acc core => acc.set (coreToNode core) (acc.getD (coreToNode core) [] ++ [core]))
    (List.replicate maxNodes [])

/-- Modelled from the spec: the `CpuInfo` hardware-flag constants are declared
in `util/cpu_info.h`, which is outside the source slice; the spec describes
`HardwareFlags` as "bitmask of supported instruction-set extensions
(enumerated set)", so the constants are modelled as distinct single bits in
declaration order. -/
def SSSE3 : Nat := 2 ^ 0

/-- Modelled from the spec: see `SSSE3`. -/
def SSE4_1 : Nat := 2 ^ 1

/-- Modelled from the spec: see `SSSE3`. -/
def SSE4_2 : Nat := 2 ^ 2

/-- Modelled from the spec: see `SSSE3`. -/
def POPCNT : Nat := 2 ^ 3

/-- Modelled from the spec: see `SSSE3`. -/
def AVX : Nat := 2 ^ 4

/-- Modelled from the spec: see `SSSE3`. -/
def AVX2 : Nat := 2 ^ 5

/-- Modelled from the spec: see `SSSE3`. -/
def AVX512F : Nat := 2 ^ 6

/-- Modelled from the spec: see `SSSE3`. -/
def AVX512BW : Nat := 2 ^ 7

/-- The `flag_mappings` table (lines 100-107): flag-name token and bit. -/
def flag_mappings : List (List Char × Nat) :=
  [(chars "ssse3", SSSE3), (chars "sse4_1", SSE4_1), (chars "sse4_2", SSE4_2),
   (chars "popcnt", POPCNT), (chars "avx", AVX), (chars "avx2", AVX2),
   (chars "avx512f", AVX512F), (chars "avx512bw", AVX512BW)]

/-- `needle` is a leading segment of `hay`. -/
def startsWithL : List Char → List Char → Bool
  | [], _ => true
  | _ :: _, [] => false
  | a :: as, b :: bs => a == b && startsWithL as bs

/-- `boost::algorithm::contains`: substring containment. -/
def containsSub (needle : List Char) : List Char → Bool
  | [] => needle.isEmpty
  | b :: bs => startsWithL needle (b :: bs) || containsSub needle bs

/-- `ParseCPUFlags` (lines 113-121): OR together the bit of every mapping
whose name occurs as a substring of the flags line. -/
def ParseCPUFlags (values : List Char) : Nat :=
  flag_mappings.foldl
    (fun fl m => if containsSub m.1 values then fl ||| m.2 else fl) 0

/-- Well-formed tokens of a core-range list: a nonempty all-digit singleton,
or a range of two nonempty all-digit parts joined by a dash. -/
def wfTok (t : List Char) : Prop :=
  (t ≠ [] ∧ ∀ c ∈ t, isDigitC c = true) ∨
  (∃ a b, t = a ++ '-' :: b ∧ a ≠ [] ∧ b ≠ [] ∧
    (∀ c ∈ a, isDigitC c = true) ∧ (∀ c ∈ b, isDigitC c = true))

end CpuInfoModel

open CpuInfoModel

/-- C2: the final usable count is changed only when
`min cfs_num_cores cpuset_num_cores` is strictly less than the prior count
`n`, in which case it equals `max 1 (min cfs_num_cores cpuset_num_cores)`;
otherwise `n` is kept unchanged. -/
theorem cgroup_final_count_characterization (cfs cpusetCnt n : Int) :
    applyCgroupLimit cfs cpusetCnt n =
      (if min cfs cpusetCnt < n then max 1 (min cfs cpusetCnt) else n) ∧
    (applyCgroupLimit cfs cpusetCnt n ≠ n → min cfs cpusetCnt < n) := by
  unfold applyCgroupLimit
  constructor
  · by_cases h : cfs < n ∨ cpusetCnt < n
    · rw [if_pos h, if_pos (min_lt_iff.mpr h)]
    · rw [if_neg h, if_neg (fun hmin => h (min_lt_iff.mp hmin))]
  · intro hne
    by_cases h : cfs < n ∨ cpusetCnt < n
    · exact min_lt_iff.mpr h
    · rw [if_neg h] at hne
      exact absurd rfl hne

/-- Witness for C2 at concrete inputs. -/
theorem cgroup_final_count_characterization_witness :
    applyCgroupLimit 2 3 4 = max 1 (min 2 3) :=
  ((cgroup_final_count_characterization 2 3 4).1).trans (by decide)

/-- C4: after initialization, the usable core count is at least 1, for every
`/proc/cpuinfo` processor count, every cgroup environment, every offline-core
set, and every override value. -/
theorem init_num_cores_ge_one (cpuinfoNumCores : Int) (env : CgroupEnv)
    (offline : Nat → Bool) (configNumCores : Int) :
    1 ≤ init_num_cores cpuinfoNumCores env offline configNumCores := by
  unfold init_num_cores
  dsimp only
  split
  · omega
  · split <;> omega

/-- C9: with no container marker the cgroup resolver changes nothing: the
whole state (usable core count, cpuset core list, both source-active flags)
is returned unchanged, so the usable count equals the raw scanned count. -/
theorem cgroup_resolver_noop_without_marker (env : CgroupEnv)
    (offline : Nat → Bool) (st : CpuState) (h : env.dockerenv = false) :
    init_num_cores_with_cgroup env offline st = st ∧
    (init_num_cores_with_cgroup env offline st).num_cores = st.num_cores := by
  have heq : init_num_cores_with_cgroup env offline st = st := by
    unfold init_num_cores_with_cgroup
    rw [h]
    rfl
  exact ⟨heq, by rw [heq]⟩

/-- Witness for C9 at a concrete environment. -/
theorem cgroup_resolver_noop_without_marker_witness :
    init_num_cores_with_cgroup
      (CgroupEnv.mk false true FsType.tmpfs none none none none none)
      (fun _ => false) (CpuState.mk 4 [] false false) =
    CpuState.mk 4 [] false false :=
  (cgroup_resolver_noop_without_marker
    (CgroupEnv.mk false true FsType.tmpfs none none none none none)
    (fun _ => false) (CpuState.mk 4 [] false false) rfl).1

/-- C8: offline cores never appear in the usable core id list returned by
`get_core_ids` — in the cpuset branch or in the per-node concatenation —
and the cpuset list built by the cgroup resolver contains no offline core
(provided the prior list, kept when no cpuset restriction exists, had none). -/
theorem offline_cores_never_usable (cpuset : List Nat)
    (nodes : List (List Nat)) (offline : Nat → Bool) :
    (∀ c ∈ get_core_ids cpuset nodes offline, offline c = false) ∧
    (∀ periodStr quotaStr cpusetStr st c,
      (∀ x ∈ st.cpuset_cores, offline x = false) →
      c ∈ (resolveWithContents periodStr quotaStr cpusetStr offline st).cpuset_cores →
      offline c = false) := by
  constructor
  · intro c hc
    unfold get_core_ids at hc
    have := (List.mem_filter.mp hc).2
    simpa using this
  · intro periodStr quotaStr cpusetStr st c hprior hc
    unfold resolveWithContents at hc
    by_cases hact : cpusetActive cpusetStr = true
    · simp only [hact, if_pos] at hc
      have := (List.mem_filter.mp hc).2
      simpa using this
    · simp only [Bool.not_eq_true] at hact
      simp only [hact] at hc
      exact hprior c hc

/-- Witness for C8 at concrete inputs. -/
theorem offline_cores_never_usable_witness :
    (0 ∈ get_core_ids [0, 1, 4] [] (fun n => n == 1)) ∧
    ((fun n : Nat => n == 1) 0 = false) :=
  ⟨by decide,
   (offline_cores_never_usable [0, 1, 4] [] (fun n => n == 1)).1 0 (by decide)⟩

/-- C3 counterexample: quota `8589934592000000` and period `1000000` both
parse as positive integers, and `floor(quota / period) = 2^33 = 8589934592`;
the code assigns that `int64_t` quotient to the `int32_t` variable
`cfs_num_cores` (line 324), wrapping it to 0, so the derived count is 0 and
not the floor the claim asserts (the quota source is still recorded
active). -/
theorem cfs_cores_int32_wrap_counterexample :
    cfsCores (chars "1000000") (chars "8589934592000000") 4 = (0, true) ∧
    ¬ ((cfsCores (chars "1000000") (chars "8589934592000000") 4).1
        = 8589934592) := by
  decide

lemma toInt32_eq_self (x : Int) (h0 : 0 ≤ x) (h1 : x < 2 ^ 31) :
    toInt32 x = x := by
  unfold toInt32
  omega

/-- C3 amended: whenever the period and quota strings both parse as positive
integers, the quota-derived core count is the `int32_t` two's-complement
narrowing of the integer quotient `floor(quota / period)` — equal to the
quotient itself whenever that quotient is below `2^31` — and the quota
source is recorded as active; in particular period `100000` and quota
`250000` derive 2 cores. -/
theorem cfs_cores_of_positive_quota (periodStr quotaStr : List Char)
    (n p q : Int) (hp : string_to_int64 periodStr = some p)
    (hq : string_to_int64 quotaStr = some q) (hppos : 0 < p) (hqpos : 0 < q) :
    cfsCores periodStr quotaStr n = (toInt32 (q / p), true) ∧
    (q / p < 2 ^ 31 → cfsCores periodStr quotaStr n = (q / p, true)) ∧
    cfsCores (chars "100000") (chars "250000") n = (2, true) := by
  have hmain : cfsCores periodStr quotaStr n = (toInt32 (q / p), true) := by
    unfold cfsCores
    rw [hp, hq]
    simp only [Option.getD_some]
    rw [if_pos ⟨hqpos, hppos⟩]
  refine ⟨hmain, ?_, ?_⟩
  · intro hsmall
    rw [hmain, toInt32_eq_self (q / p)
      (Int.ediv_nonneg (le_of_lt hqpos) (le_of_lt hppos)) hsmall]
  · have h1 : string_to_int64 (chars "100000") = some 100000 := by decide
    have h2 : string_to_int64 (chars "250000") = some 250000 := by decide
    simp only [cfsCores, h1, h2, Option.getD_some]
    rw [if_pos (by norm_num : (0 : Int) < 250000 ∧ (0 : Int) < 100000)]
    decide

/-- Witness for the amended C3 at concrete inputs. -/
theorem cfs_cores_of_positive_quota_witness :
    cfsCores (chars "100000") (chars "250000") 7 = (2, true) := by
  have h := cfs_cores_of_positive_quota (chars "100000") (chars "250000") 7
    100000 250000 (by decide) (by decide) (by decide) (by decide)
  exact h.2.2

/-- C1 counterexample: with the container marker present, `statfs` reporting
cgroup v1, the period file unreadable, but the quota file readable as
`250000` and the cpuset file readable as `0` (one core, fewer than the prior
4), the claim says the cpuset source is still read and applied, lowering the
usable count to 1; the code instead returns early from the stage, keeping 4
cores and leaving the cpuset source inactive. -/
theorem cgroup_read_failure_counterexample :
    (init_num_cores_with_cgroup
      (CgroupEnv.mk true true FsType.tmpfs none (some (chars "250000"))
        (some (chars "0")) none none)
      (fun _ => false) (CpuState.mk 4 [] false false)).num_cores = 4 ∧
    ¬ ((init_num_cores_with_cgroup
      (CgroupEnv.mk true true FsType.tmpfs none (some (chars "250000"))
        (some (chars "0")) none none)
      (fun _ => false) (CpuState.mk 4 [] false false)).num_cores = 1) ∧
    (init_num_cores_with_cgroup
      (CgroupEnv.mk true true FsType.tmpfs none (some (chars "250000"))
        (some (chars "0")) none none)
      (fun _ => false) (CpuState.mk 4 [] false false)).is_cgroup_with_cpuset
      = false := by
  decide

/-- C1 amended: a failed *read* of any required cgroup file makes the
resolver return early with every field unchanged (so no other source is
applied either); only a successfully read but *unparsable* quota or period
value disables just the quota source, behaving exactly as if both bandwidth
strings were empty and leaving the cpuset to be read and applied — in
particular an unparsable quota together with cpuset `0` still lowers a prior
count of 4 to 1 and records the cpuset source active. -/
theorem cgroup_read_failure_aborts_stage (env : CgroupEnv)
    (offline : Nat → Bool) (st : CpuState)
    (periodStr quotaStr cpusetStr : List Char) :
    (readCgroupFiles env = none → init_num_cores_with_cgroup env offline st = st) ∧
    ((string_to_int64 quotaStr = none ∨ string_to_int64 periodStr = none) →
      resolveWithContents periodStr quotaStr cpusetStr offline st =
        resolveWithContents [] [] cpusetStr offline st) ∧
    (resolveWithContents (chars "100000") (chars "foo") (chars "0")
      (fun _ => false) (CpuState.mk 4 [] false false) =
      CpuState.mk 1 [0] false true) := by
  refine ⟨?_, ?_, by decide⟩
  · intro h
    unfold init_num_cores_with_cgroup
    rw [h]
    split_ifs <;> rfl
  · intro h
    have hcfs : cfsCores periodStr quotaStr st.num_cores = (st.num_cores, false) := by
      unfold cfsCores
      rcases h with hq | hp
      · rw [hq]
        rfl
      · rw [hp]
        norm_num
    have h0 : cfsCores [] [] st.num_cores = (st.num_cores, false) := rfl
    simp only [resolveWithContents]
    rw [hcfs, h0]

/-- Witness for the amended C1 at a concrete environment. -/
theorem cgroup_read_failure_aborts_stage_witness :
    init_num_cores_with_cgroup
      (CgroupEnv.mk true true FsType.tmpfs none (some (chars "250000"))
        (some (chars "0")) none none)
      (fun _ => false) (CpuState.mk 4 [] false false) =
    CpuState.mk 4 [] false false :=
  (cgroup_read_failure_aborts_stage
    (CgroupEnv.mk true true FsType.tmpfs none (some (chars "250000"))
      (some (chars "0")) none none)
    (fun _ => false) (CpuState.mk 4 [] false false) [] [] []).1 (by decide)

lemma getD_set_self (l : List (List Nat)) (i : Nat) (a : List Nat)
    (h : i < l.length) : (l.set i a).getD i [] = a := by
  simp [List.getD, List.getElem?_set, h]

lemma getD_set_ne (l : List (List Nat)) (i j : Nat) (a : List Nat)
    (h : i ≠ j) : (l.set i a).getD j [] = l.getD j [] := by
  simp [List.getD, List.getElem?_set, h]

lemma init_numa_node_to_cores_step (maxNodes : Nat) (coreToNode : Nat → Nat)
    (n : Nat) :
    init_numa_node_to_cores maxNodes (n + 1) coreToNode =
      (init_numa_node_to_cores maxNodes n coreToNode).set (coreToNode n)
        ((init_numa_node_to_cores maxNodes n coreToNode).getD (coreToNode n) []
          ++ [n]) := by
  unfold init_numa_node_to_cores
  rw [List.range_succ, List.foldl_append]
  rfl

lemma init_numa_node_to_cores_length (maxNodes maxCores : Nat)
    (coreToNode : Nat → Nat) :
    (init_numa_node_to_cores maxNodes maxCores coreToNode).length = maxNodes := by
  induction maxCores with
  | zero => simp [init_numa_node_to_cores]
  | succ n ih => rw [init_numa_node_to_cores_step, List.length_set, ih]

lemma init_numa_node_to_cores_getD (maxNodes maxCores : Nat)
    (coreToNode : Nat → Nat) (node : Nat) (hn : node < maxNodes) :
    (init_numa_node_to_cores maxNodes maxCores coreToNode).getD node [] =
      (List.range maxCores).filter (fun c => coreToNode c == node) := by
  induction maxCores with
  | zero => simp [init_numa_node_to_cores, List.getD]
  | succ n ih =>
    rw [init_numa_node_to_cores_step, List.range_succ, List.filter_append]
    by_cases hEq : coreToNode n = node
    · rw [hEq, getD_set_self _ _ _
        (by rw [init_numa_node_to_cores_length]; exact hn), ih]
      simp [hEq]
    · rw [getD_set_ne _ _ _ _ hEq, ih]
      simp [hEq]

/-- C7: for every core-to-node assignment with node ids below
`max_num_numa_nodes`, the node-to-cores mapping built by the NUMA Topology
Builder is the inverse of the core-to-node map with cores appended in
increasing id order — each node's list is exactly the ascending cores of
`[0, max_num_cores)` mapped to it — and every core id of
`[0, max_num_cores)` appears in exactly one node's list. -/
theorem numa_node_to_cores_partition (maxNodes maxCores : Nat)
    (coreToNode : Nat → Nat) (h : ∀ c, c < maxCores → coreToNode c < maxNodes) :
    (∀ node, node < maxNodes →
      (init_numa_node_to_cores maxNodes maxCores coreToNode).getD node [] =
        (List.range maxCores).filter (fun c => coreToNode c == node)) ∧
    (∀ c, c < maxCores → ∃! node, node < maxNodes ∧
      c ∈ (init_numa_node_to_cores maxNodes maxCores coreToNode).getD node []) := by
  have hchar := fun node hn =>
    init_numa_node_to_cores_getD maxNodes maxCores coreToNode node hn
  refine ⟨hchar, ?_⟩
  intro c hc
  refine ⟨coreToNode c, ⟨h c hc, ?_⟩, ?_⟩
  · rw [hchar _ (h c hc)]
    simp [List.mem_filter, List.mem_range, hc]
  · rintro y ⟨hy, hmem⟩
    rw [hchar _ hy] at hmem
    have hbeq := (List.mem_filter.mp hmem).2
    have : coreToNode c = y := by simpa using hbeq
    omega

/-- Witness for C7 at a concrete topology. -/
theorem numa_node_to_cores_partition_witness :
    (init_numa_node_to_cores 2 3 (fun c => c % 2)).getD 0 [] = [0, 2] := by
  have h := (numa_node_to_cores_partition 2 3 (fun c => c % 2)
    (by intro c hc; show c % 2 < 2; omega)).1 0 (by omega)
  rw [h]
  decide

lemma digitVal_ofNat (k : Nat) (h : k < 10) :
    digitVal (Char.ofNat (48 + k)) = k := by
  interval_cases k <;> decide

lemma isDigitC_ofNat (k : Nat) (h : k < 10) :
    isDigitC (Char.ofNat (48 + k)) = true := by
  interval_cases k <;> decide

lemma natChars_ne_nil (n : Nat) : natChars n ≠ [] := by
  rw [natChars.eq_def]
  split <;> simp

lemma natChars_all_digits (n : Nat) : ∀ c ∈ natChars n, isDigitC c = true := by
  induction n using Nat.strong_induction_on with
  | _ n ih =>
    rw [natChars.eq_def]
    split
    · intro c hc
      rw [List.mem_singleton.mp hc]
      next h => exact isDigitC_ofNat n h
    · next h =>
      intro c hc
      rcases List.mem_append.mp hc with h1 | h2
      · exact ih (n / 10) (Nat.div_lt_self (by omega) (by omega)) c h1
      · rw [List.mem_singleton.mp h2]
        exact isDigitC_ofNat _ (Nat.mod_lt _ (by omega))

lemma natChars_foldl (n : Nat) :
    (natChars n).foldl (fun a c => a * 10 + digitVal c) 0 = n := by
  induction n using Nat.strong_induction_on with
  | _ n ih =>
    rw [natChars.eq_def]
    split
    · next h =>
      simp only [List.foldl_cons, List.foldl_nil]
      rw [digitVal_ofNat n h]
      omega
    · next h =>
      rw [List.foldl_append, ih (n / 10) (Nat.div_lt_self (by omega) (by omega))]
      simp only [List.foldl_cons, List.foldl_nil]
      rw [digitVal_ofNat (n % 10) (Nat.mod_lt _ (by omega))]
      omega

lemma digit_char_facts (c : Char) (h : isDigitC c = true) :
    isWs c = false ∧ (c == ',') = false ∧ (c == '-') = false := by
  have hb : 48 ≤ c.toNat ∧ c.toNat ≤ 57 := by
    unfold isDigitC at h
    rw [Bool.and_eq_true] at h
    exact ⟨of_decide_eq_true h.1, of_decide_eq_true h.2⟩
  have hlt : ∀ d : Char, d.toNat < 48 → (c == d) = false := by
    intro d hd
    apply beq_eq_false_iff_ne.mpr
    intro heq
    subst heq
    omega
  refine ⟨?_, hlt ',' (by decide), hlt '-' (by decide)⟩
  unfold isWs
  rw [hlt ' ' (by decide), hlt '\t' (by decide), hlt '\n' (by decide),
    hlt '\x0b' (by decide), hlt '\x0c' (by decide), hlt '\r' (by decide)]
  rfl

lemma dropWhile_ws_of_none (l : List Char) (h : ∀ c ∈ l, isWs c = false) :
    l.dropWhile isWs = l := by
  cases l with
  | nil => rfl
  | cons a rest => simp [List.dropWhile_cons, h a (by simp)]

lemma trimWs_of_no_ws (l : List Char) (h : ∀ c ∈ l, isWs c = false) :
    trimWs l = l := by
  unfold trimWs
  rw [dropWhile_ws_of_none l h,
    dropWhile_ws_of_none _ (fun c hc => h c (List.mem_reverse.mp hc)),
    List.reverse_reverse]

lemma parseNatDigits_natChars (n : Nat) :
    parseNatDigits (natChars n) = some n := by
  unfold parseNatDigits
  rw [if_neg (by simp [List.isEmpty_iff, natChars_ne_nil n]),
    if_pos (List.all_eq_true.mpr (natChars_all_digits n)), natChars_foldl]

lemma string_to_int32_natChars (n : Nat) :
    string_to_int32 (natChars n) = some n := by
  unfold string_to_int32
  rw [trimWs_of_no_ws _
    (fun c hc => (digit_char_facts c (natChars_all_digits n c hc)).1),
    parseNatDigits_natChars]

lemma splitOnChar_of_no_delim (d : Char) (l : List Char)
    (h : ∀ c ∈ l, (c == d) = false) : splitOnChar d l = [l] := by
  induction l with
  | nil => rfl
  | cons c rest ih =>
    simp only [splitOnChar, h c (by simp), Bool.false_eq_true, if_false,
      ih (fun x hx => h x (by simp [hx]))]

lemma splitOnChar_append (d : Char) (l1 l2 : List Char)
    (h : ∀ c ∈ l1, (c == d) = false) :
    splitOnChar d (l1 ++ d :: l2) = l1 :: splitOnChar d l2 := by
  induction l1 with
  | nil => simp [splitOnChar]
  | cons c rest ih =>
    simp only [List.cons_append, splitOnChar, h c (by simp),
      Bool.false_eq_true, if_false, List.append_eq,
      ih (fun x hx => h x (by simp [hx]))]

lemma splitOnChar_joinComma (toks : List (List Char)) (hne : toks ≠ [])
    (h : ∀ t ∈ toks, ∀ c ∈ t, (c == ',') = false) :
    splitOnChar ',' (joinComma toks) = toks := by
  induction toks with
  | nil => exact absurd rfl hne
  | cons t ts ih =>
    cases ts with
    | nil => exact splitOnChar_of_no_delim ',' t (h t (by simp))
    | cons t2 ts2 =>
      show splitOnChar ',' (t ++ ',' :: joinComma (t2 :: ts2)) = t :: (t2 :: ts2)
      rw [splitOnChar_append ',' t _ (h t (by simp)),
        ih (by simp) (fun x hx => h x (by simp [hx]))]

lemma skipWsFields_eq_self (fields : List (List Char))
    (h : ∀ f ∈ fields, f.any (fun c => !(isWs c)) = true) :
    skipWsFields fields = fields :=
  List.filter_eq_self.mpr h

lemma parse_cpus_joinComma (toks : List (List Char)) (hne : toks ≠ [])
    (hsib : ∀ t ∈ toks,
      (∀ c ∈ t, (c == ',') = false) ∧ t.any (fun c => !(isWs c)) = true) :
    parse_cpus (joinComma toks) = (toks.map parseField).flatten := by
  unfold parse_cpus splitSkip
  rw [splitOnChar_joinComma toks hne (fun t ht => (hsib t ht).1),
    skipWsFields_eq_self toks (fun t ht => (hsib t ht).2)]

lemma natChars_any_non_ws (n : Nat) :
    (natChars n).any (fun c => !(isWs c)) = true := by
  cases h : natChars n with
  | nil => exact absurd h (natChars_ne_nil n)
  | cons c cs =>
    have hd : isDigitC c = true := natChars_all_digits n c (by rw [h]; simp)
    simp [(digit_char_facts c hd).1]

lemma parseField_natChars (n : Nat) : parseField (natChars n) = [n] := by
  have hd : hasDash (natChars n) = false := by
    unfold hasDash
    rw [List.any_eq_false]
    intro c hc
    simp [(digit_char_facts c (natChars_all_digits n c hc)).2.2]
  unfold parseField
  rw [hd, string_to_int32_natChars]
  rfl

lemma range_token_no_dash_left (a : Nat) :
    ∀ c ∈ natChars a, (c == '-') = false :=
  fun c hc => (digit_char_facts c (natChars_all_digits a c hc)).2.2

lemma parseField_range (a b : Nat) :
    parseField (natChars a ++ '-' :: natChars b) = List.range' a (b + 1 - a) := by
  have hdash : hasDash (natChars a ++ '-' :: natChars b) = true := by
    unfold hasDash
    rw [List.any_eq_true]
    exact ⟨'-', by simp, by simp⟩
  have hsplit : splitSkip '-' (natChars a ++ '-' :: natChars b) =
      [natChars a, natChars b] := by
    unfold splitSkip
    rw [splitOnChar_append '-' _ _ (range_token_no_dash_left a),
      splitOnChar_of_no_delim '-' _ (range_token_no_dash_left b)]
    exact skipWsFields_eq_self _ (by
      intro f hf
      rcases List.mem_cons.mp hf with rfl | hf2
      · exact natChars_any_non_ws a
      · rw [List.mem_singleton.mp hf2]
        exact natChars_any_non_ws b)
  unfold parseField
  rw [hdash, hsplit]
  show (match string_to_int32 (natChars a), string_to_int32 (natChars b) with
    | some s, some e => List.range' s (e + 1 - s)
    | _, _ => ([] : List Nat)) = List.range' a (b + 1 - a)
  rw [string_to_int32_natChars a, string_to_int32_natChars b]

lemma wfTok_facts (t : List Char) (h : wfTok t) :
    (∀ c ∈ t, (c == ',') = false) ∧ t.any (fun c => !(isWs c)) = true := by
  rcases h with ⟨hne, hdig⟩ | ⟨a, b, rfl, hane, hbne, hadig, hbdig⟩
  · constructor
    · exact fun c hc => (digit_char_facts c (hdig c hc)).2.1
    · cases t with
      | nil => exact absurd rfl hne
      | cons c cs => simp [(digit_char_facts c (hdig c (by simp))).1]
  · constructor
    · intro c hc
      rcases List.mem_append.mp hc with h1 | h2
      · exact (digit_char_facts c (hadig c h1)).2.1
      · rcases List.mem_cons.mp h2 with rfl | h3
        · decide
        · exact (digit_char_facts c (hbdig c h3)).2.1
    · cases a with
      | nil => exact absurd rfl hane
      | cons c cs => simp [(digit_char_facts c (hadig c (by simp))).1]

/-- C5: for all `a ≤ b` the Range-List Parser decodes the numeral token
`a-b` to exactly `a..b` inclusive in ascending order (`List.range'` from `a`
of length `b + 1 - a`); a singleton numeral token decodes to itself; and on
every well-formed comma-separated mix of singleton and range tokens the
output is the concatenation of the per-token decodings in input order,
duplicates preserved. -/
theorem parse_cpus_range_decode (a b : Nat) (hab : a ≤ b)
    (toks : List (List Char)) (hne : toks ≠ []) (hwf : ∀ t ∈ toks, wfTok t) :
    parse_cpus (natChars a ++ '-' :: natChars b) = List.range' a (b + 1 - a) ∧
    parseField (natChars a) = [a] ∧
    parse_cpus (joinComma toks) = (toks.map parseField).flatten := by
  refine ⟨?_, parseField_natChars a,
    parse_cpus_joinComma toks hne (fun t ht => wfTok_facts t (hwf t ht))⟩
  have hone := parse_cpus_joinComma [natChars a ++ '-' :: natChars b]
    (by simp)
    (by
      intro t ht
      rw [List.mem_singleton.mp ht]
      exact wfTok_facts _ (Or.inr ⟨natChars a, natChars b, rfl,
        natChars_ne_nil a, natChars_ne_nil b,
        natChars_all_digits a, natChars_all_digits b⟩))
  rw [show joinComma [natChars a ++ '-' :: natChars b] =
    natChars a ++ '-' :: natChars b from rfl] at hone
  rw [hone]
  simp [parseField_range]

/-- Witness for C5 at concrete inputs. -/
theorem parse_cpus_range_decode_witness :
    parse_cpus (natChars 2 ++ '-' :: natChars 4) = List.range' 2 (4 + 1 - 2) :=
  (parse_cpus_range_decode 2 4 (by omega) [natChars 7] (by simp)
    (fun t ht => by
      rw [List.mem_singleton.mp ht]
      exact Or.inl ⟨natChars_ne_nil 7, natChars_all_digits 7⟩)).1

/-- C6: each malformed token (non-numeric such as `foo`, incomplete range
such as `3-` or `-5`, more than two dash-separated parts such as `a-b-c`)
decodes to nothing, and on any comma-joined token list (each token free of
commas and not all whitespace) the parser still returns the concatenation of
the per-token decodings, so valid sibling tokens are never discarded and the
parser, a total function, never fails the caller; in particular `1,foo,3-4`
decodes to `[1, 3, 4]`. -/
theorem parse_cpus_skips_malformed (toks : List (List Char)) (hne : toks ≠ [])
    (hsib : ∀ t ∈ toks,
      (∀ c ∈ t, (c == ',') = false) ∧ t.any (fun c => !(isWs c)) = true) :
    parse_cpus (joinComma toks) = (toks.map parseField).flatten ∧
    (parseField (chars "foo") = [] ∧ parseField (chars "3-") = [] ∧
      parseField (chars "-5") = [] ∧ parseField (chars "a-b-c") = []) ∧
    parse_cpus (chars "1,foo,3-4") = [1, 3, 4] :=
  ⟨parse_cpus_joinComma toks hne hsib, by decide, by decide⟩

/-- Witness for C6 at concrete inputs. -/
theorem parse_cpus_skips_malformed_witness :
    parse_cpus (joinComma [chars "1", chars "foo", chars "3-4"]) =
      ([chars "1", chars "foo", chars "3-4"].map parseField).flatten :=
  (parse_cpus_skips_malformed [chars "1", chars "foo", chars "3-4"]
    (by decide) (by decide)).1

lemma startsWithL_iff (n : List Char) : ∀ h : List Char,
    (startsWithL n h = true ↔ ∃ t, h = n ++ t) := by
  induction n with
  | nil => intro h; simp [startsWithL]
  | cons a as ih =>
    intro h
    cases h with
    | nil => simp [startsWithL]
    | cons b bs =>
      rw [startsWithL, Bool.and_eq_true, beq_iff_eq, ih bs]
      constructor
      · rintro ⟨rfl, t, rfl⟩
        exact ⟨t, rfl⟩
      · rintro ⟨t, ht⟩
        rw [List.cons_append, List.cons.injEq] at ht
        exact ⟨ht.1.symm, t, ht.2⟩

lemma containsSub_iff (n : List Char) : ∀ h : List Char,
    (containsSub n h = true ↔ ∃ p t, h = p ++ n ++ t) := by
  intro h
  induction h with
  | nil =>
    rw [containsSub]
    constructor
    · intro he
      exact ⟨[], [], by simp [List.isEmpty_iff.mp he]⟩
    · rintro ⟨p, t, ht⟩
      rw [List.isEmpty_iff]
      rcases List.append_eq_nil.mp (List.append_eq_nil.mp ht.symm).1 with ⟨_, h2⟩
      exact h2
  | cons b bs ih =>
    rw [containsSub, Bool.or_eq_true, startsWithL_iff, ih]
    constructor
    · rintro (⟨t, ht⟩ | ⟨p, t, ht⟩)
      · exact ⟨[], t, by simpa using ht⟩
      · exact ⟨b :: p, t, by simp [ht]⟩
    · rintro ⟨p, t, ht⟩
      cases p with
      | nil => exact Or.inl ⟨t, by simpa using ht⟩
      | cons x xs =>
        rw [List.append_assoc, List.cons_append, List.cons.injEq] at ht
        exact Or.inr ⟨xs, t, by rw [List.append_assoc]; exact ht.2⟩

lemma containsSub_trans (a b v : List Char) (h1 : containsSub a b = true)
    (h2 : containsSub b v = true) : containsSub a v = true := by
  rw [containsSub_iff] at h1 h2 ⊢
  obtain ⟨p1, t1, rfl⟩ := h1
  obtain ⟨p2, t2, rfl⟩ := h2
  exact ⟨p2 ++ p1, t1 ++ t2, by simp⟩

lemma testBit_flag_foldl (l : List (List Char × Nat)) (v : List Char)
    (k : Nat) : ∀ init : Nat,
    ((l.foldl (fun fl m => if containsSub m.1 v then fl ||| m.2 else fl)
        init).testBit k) =
      (init.testBit k || l.any (fun m => containsSub m.1 v && m.2.testBit k)) := by
  induction l with
  | nil => simp
  | cons m ms ih =>
    intro init
    rw [List.foldl_cons, ih]
    by_cases h : containsSub m.1 v = true
    · simp [h, Nat.testBit_or, Bool.or_assoc]
    · have hf : containsSub m.1 v = false := by simpa using h
      simp [hf]

lemma testBit_ParseCPUFlags (v : List Char) (k : Nat) :
    (ParseCPUFlags v).testBit k =
      flag_mappings.any (fun m => containsSub m.1 v && m.2.testBit k) := by
  unfold ParseCPUFlags
  rw [testBit_flag_foldl]
  simp

lemma and_two_pow_ne_zero (x k : Nat) :
    x &&& 2 ^ k ≠ 0 ↔ x.testBit k = true := by
  constructor
  · intro h
    by_contra hf
    apply h
    apply Nat.eq_of_testBit_eq
    intro i
    rw [Nat.testBit_and, Nat.zero_testBit]
    by_cases hik : i = k
    · subst hik
      rw [Bool.not_eq_true] at hf
      simp [hf]
    · simp [Nat.testBit_two_pow_of_ne (Ne.symm hik)]
  · intro h hzero
    have hb : (x &&& 2 ^ k).testBit k = true := by
      rw [Nat.testBit_and, h, Nat.testBit_two_pow_self]
      rfl
    rw [hzero, Nat.zero_testBit] at hb
    exact Bool.false_ne_true hb

lemma flag_bit_characterization (v : List Char) (m : List Char × Nat)
    (hmem : m ∈ flag_mappings) :
    (ParseCPUFlags v &&& m.2 ≠ 0 ↔ containsSub m.1 v = true) := by
  fin_cases hmem <;>
  · simp only [SSSE3, SSE4_1, SSE4_2, POPCNT, AVX, AVX2, AVX512F, AVX512BW]
    rw [and_two_pow_ne_zero, testBit_ParseCPUFlags]
    simp +decide [flag_mappings, SSSE3, SSE4_1, SSE4_2, POPCNT, AVX, AVX2,
      AVX512F, AVX512BW]

/-- C10: the bitmask produced by `ParseCPUFlags` is monotone under flag-name
inclusion, because detection is substring containment on the flags line:
whenever the AVX2, AVX512F, or AVX512BW bit is set, the AVX bit is also set,
and in general for any two table entries whose names are in substring
relation, the bit of the shorter name is set whenever the bit of the longer
(present) name is. -/
theorem parse_cpu_flags_monotone (v : List Char) :
    ((ParseCPUFlags v &&& AVX2 ≠ 0 → ParseCPUFlags v &&& AVX ≠ 0) ∧
     (ParseCPUFlags v &&& AVX512F ≠ 0 → ParseCPUFlags v &&& AVX ≠ 0) ∧
     (ParseCPUFlags v &&& AVX512BW ≠ 0 → ParseCPUFlags v &&& AVX ≠ 0)) ∧
    (∀ m1 m2, m1 ∈ flag_mappings → m2 ∈ flag_mappings →
      containsSub m1.1 m2.1 = true →
      ParseCPUFlags v &&& m2.2 ≠ 0 → ParseCPUFlags v &&& m1.2 ≠ 0) := by
  have hgen : ∀ m1 m2, m1 ∈ flag_mappings → m2 ∈ flag_mappings →
      containsSub m1.1 m2.1 = true →
      ParseCPUFlags v &&& m2.2 ≠ 0 → ParseCPUFlags v &&& m1.2 ≠ 0 := by
    intro m1 m2 h1 h2 hsub hset
    exact (flag_bit_characterization v m1 h1).mpr
      (containsSub_trans _ _ _ hsub
        ((flag_bit_characterization v m2 h2).mp hset))
  exact ⟨⟨hgen (chars "avx", AVX) (chars "avx2", AVX2)
      (by decide) (by decide) (by decide),
    hgen (chars "avx", AVX) (chars "avx512f", AVX512F)
      (by decide) (by decide) (by decide),
    hgen (chars "avx", AVX) (chars "avx512bw", AVX512BW)
      (by decide) (by decide) (by decide)⟩, hgen⟩

/-- Witness for C10 at a concrete flags line. -/
theorem parse_cpu_flags_monotone_witness :
    (ParseCPUFlags (chars "avx2") &&& AVX2 ≠ 0) ∧
    (ParseCPUFlags (chars "avx2") &&& AVX ≠ 0) :=
  ⟨by decide, (parse_cpu_flags_monotone (chars "avx2")).1.1 (by decide)⟩

